import Mathlib

/-!
Shallow embedding of the structure-layout core declared in
src/lib/IRGen/StructLayout.h (namespace swift::irgen).

The header file in the snapshot contains the type declarations and the
inline accessor bodies; the algorithm bodies (addHeapHeader, addFields,
the full StructLayout constructor, emitSize/emitAlign) and the Size and
Alignment arithmetic from IRGen.h are not part of the snapshot, so those
definitions are modelled from the natural-language specification and are
marked as such in their doc comments.
-/

namespace IRGenModel

/-- Modelled from the spec: Size and Alignment arithmetic lives in IRGen.h,
which is not in the snapshot. Section 4.1 of the spec: roundUpToAlignment
returns the smallest multiple of align that is at least offset. Alignment
values of zero or non-power-of-two are a caller contract violation. -/
def roundUpToAlignment (offset align : Nat) : Nat :=
  offset + (align - offset % align) % align

/-- Field descriptor (TypeInfo in the source). The header only forward
declares it; per the spec it is capability polymorphic over hasFixedSize,
fixedSize, hasFixedAlignment and fixedAlignment; modelled as optional
fixed size and alignment, plus an identity so that two descriptors with
the same layout data stay distinguishable. -/
structure TypeInfo where
  id : Nat
  fixedSize? : Option Nat
  fixedAlignment? : Option Nat
deriving DecidableEq, Repr

/-- A field descriptor is fixed when both its size and its alignment are
statically known (spec, section 4.3 step 1). -/
def TypeInfo.isFixed (ti : TypeInfo) : Bool :=
  ti.fixedSize?.isSome && ti.fixedAlignment?.isSome

/-- The statically fixed size of a descriptor, defaulting to 0. -/
def TypeInfo.fixedSizeValue (ti : TypeInfo) : Nat := ti.fixedSize?.getD 0

/-- The statically fixed alignment of a descriptor, defaulting to the
1-byte alignment. -/
def TypeInfo.fixedAlignValue (ti : TypeInfo) : Nat := ti.fixedAlignment?.getD 1

/-- The pair of capability queries that drive layout: (fixedSize?,
fixedAlignment?). Two descriptors with equal layoutData are treated
identically by the packing algorithm. -/
def TypeInfo.layoutData (ti : TypeInfo) : Option Nat × Option Nat :=
  (ti.fixedSize?, ti.fixedAlignment?)

/-- Native backend type representation (llvm::Type in the source),
modelled as an opaque tree: the heap header representation, the native
representation materialized from a field descriptor, an anonymous struct
body, or a named (forward-declared) struct handle. -/
inductive LLVMType where
  | heapHeaderTy : LLVMType
  | fieldTy : TypeInfo → LLVMType
  | structTy : List LLVMType → LLVMType
  | namedTy : Nat → LLVMType

/-- Backend value (llvm::Value in the source): either a compile-time
constant or a runtime-computed value. -/
inductive LLVMValue where
  | constVal : Nat → LLVMValue
  | runtimeVal : Nat → LLVMValue

/-- Whether a backend value is a compile-time constant. -/
def LLVMValue.isCompileTimeConstant : LLVMValue → Bool
  | .constVal _ => true
  | .runtimeVal _ => false

/-- From StructLayout.h line 62: NoStructIndex = unsigned(-1), the
sentinel struct index meaning the element occupies no storage slot. -/
def NoStructIndex : Nat := 4294967295

/-- From StructLayout.h lines 60 to 75: the layout for a single element.
ByteOffset is meaningful only once the owning layout is statically known;
it is modelled as an Option, none standing for an offset that was never
computed. The source field named Type is called typeInfo here because
Type is a Lean keyword. -/
structure ElementLayout where
  ByteOffset : Option Nat
  StructIndex : Nat
  typeInfo : TypeInfo

/-- From StructLayout.h lines 40 to 47. -/
inductive LayoutStrategy where
  | Optimal : LayoutStrategy
  | Universal : LayoutStrategy

/-- From StructLayout.h lines 50 to 57. -/
inductive LayoutKind where
  | NonHeapObject : LayoutKind
  | HeapObject : LayoutKind

/-- Modelled from the spec: the code-generation context (IRGenModule in
the source, not in the snapshot); per sections 4.5 and 9 of the spec the
heap header size and alignment are a module-wide constant configuration. -/
structure IRGenModule where
  heapHeaderSize : Nat
  heapHeaderAlignment : Nat

/-- From StructLayout.h lines 78 to 87: the builder state and its
initial values (StructFields empty, CurSize 0, CurAlignment 1,
IsKnownLayout true). -/
structure StructLayoutBuilder where
  StructFields : List LLVMType := []
  CurSize : Nat := 0
  CurAlignment : Nat := 1
  IsKnownLayout : Bool := true

/-- The freshly constructed builder (StructLayout.h lines 82 to 87). -/
def StructLayoutBuilder.init : StructLayoutBuilder := {}

/-- From StructLayout.h line 102. -/
def StructLayoutBuilder.empty (b : StructLayoutBuilder) : Bool :=
  b.IsKnownLayout && b.CurSize == 0

/-- From StructLayout.h line 105. -/
def StructLayoutBuilder.getStructFields (b : StructLayoutBuilder) : List LLVMType :=
  b.StructFields

/-- From StructLayout.h line 108. -/
def StructLayoutBuilder.hasKnownLayout (b : StructLayoutBuilder) : Bool :=
  b.IsKnownLayout

/-- From StructLayout.h line 111. -/
def StructLayoutBuilder.getSize (b : StructLayoutBuilder) : Nat := b.CurSize

/-- From StructLayout.h line 114. -/
def StructLayoutBuilder.getAlignment (b : StructLayoutBuilder) : Nat := b.CurAlignment

/-- Modelled from the spec, section 4.3: addHeapHeader appends the heap
header native representation, sets size to the header size and alignment
to the header alignment; it must be the first mutating call on a fresh
builder. The body lives in StructLayout.cpp, not in the snapshot. -/
def addHeapHeader (IGM : IRGenModule) (b : StructLayoutBuilder) : StructLayoutBuilder :=
  { b with
    StructFields := b.StructFields ++ [LLVMType.heapHeaderTy],
    CurSize := IGM.heapHeaderSize,
    CurAlignment := IGM.heapHeaderAlignment }

/-- Modelled from the spec, section 4.3 steps 2 and 3: the result of
absorbing a field once the builder has lost (or here loses) static
knowledge: the native representation is appended, the element gets the
sentinel index and no computable offset, the layout is no longer known,
and the batch must be reported as possibly grown. -/
def unknownResult (b : StructLayoutBuilder) (ti : TypeInfo) :
    StructLayoutBuilder × ElementLayout × Bool :=
  ({ b with
     StructFields := b.StructFields ++ [LLVMType.fieldTy ti],
     IsKnownLayout := false },
   { ByteOffset := none, StructIndex := NoStructIndex, typeInfo := ti },
   true)

/-- Modelled from the spec, section 4.3 step 2: absorb one field. While
the builder is still known and the field has fixed size and alignment,
the offset is the current size rounded up to the field alignment, the
size becomes offset plus field size, the alignment becomes the max of the
current and field alignments, and the element receives the next
sequential storage index, or the sentinel when the field size is zero (a
zero-size field is elided from the generated representation). Otherwise
the layout becomes (or stays) unknown. -/
def addField (b : StructLayoutBuilder) (ti : TypeInfo) :
    StructLayoutBuilder × ElementLayout × Bool :=
  if b.IsKnownLayout then
    match ti.fixedSize?, ti.fixedAlignment? with
    | some s, some a =>
        ({ StructFields :=
             if s == 0 then b.StructFields else b.StructFields ++ [LLVMType.fieldTy ti],
           CurSize := roundUpToAlignment b.CurSize a + s,
           CurAlignment := max b.CurAlignment a,
           IsKnownLayout := true },
         { ByteOffset := some (roundUpToAlignment b.CurSize a),
           StructIndex := if s == 0 then NoStructIndex else b.StructFields.length,
           typeInfo := ti },
         decide (b.CurSize < roundUpToAlignment b.CurSize a + s))
    | _, _ => unknownResult b ti
  else unknownResult b ti

/-- Modelled from the spec, section 4.3: absorb a batch of fields in the
given processed order, returning the new builder state, the element
records in processed order, and whether any field may have grown
storage. -/
def addFieldsSeq (b : StructLayoutBuilder) (tis : List TypeInfo) :
    StructLayoutBuilder × List ElementLayout × Bool :=
  match tis with
  | [] => (b, [], false)
  | ti :: rest =>
      let r1 := addField b ti
      let r2 := addFieldsSeq r1.1 rest
      (r2.1, r1.2.1 :: r2.2.1, r1.2.2 || r2.2.2)

/-- Running total size of laying out the given fields sequentially from
a start size, reading each field through its fixed-value accessors; this
is the size the builder reaches on an all-fixed batch. -/
def layoutSizeFixed (sz : Nat) (tis : List TypeInfo) : Nat :=
  tis.foldl (fun acc ti => roundUpToAlignment acc ti.fixedAlignValue + ti.fixedSizeValue) sz

/-- Of two candidate processed orders, keep the one with the smaller
resulting total size. -/
def pickSmaller (sz : Nat) (best cand : List TypeInfo) : List TypeInfo :=
  if layoutSizeFixed sz cand < layoutSizeFixed sz best then cand else best

/-- Modelled from the spec, sections 2 and 4.3: under the Optimal
strategy the packer may reorder the fixed subset of the batch freely to
minimize total size; modelled as choosing a total-size-minimizing
permutation of the fixed subset. -/
def optimalOrder (sz : Nat) (tis : List TypeInfo) : List TypeInfo :=
  tis.permutations.foldl (pickSmaller sz) tis

/-- Modelled from the spec, section 4.3: addFields. Under Universal the
batch is processed in declaration order; under Optimal the fixed subset
is reordered to minimize size and the not-fixed fields keep their
relative order after it (the element records are returned in processed
order; no claim measured against the Optimal strategy depends on the
record order). A batch added after the builder lost static knowledge is
reported as possibly grown unconditionally (spec step 3). -/
def addFields (b : StructLayoutBuilder) (tis : List TypeInfo) (strategy : LayoutStrategy) :
    StructLayoutBuilder × List ElementLayout × Bool :=
  let processed :=
    match strategy with
    | .Universal => tis
    | .Optimal =>
        optimalOrder b.CurSize (tis.filter (fun ti => ti.isFixed)) ++
          tis.filter (fun ti => !ti.isFixed)
  let r := addFieldsSeq b processed
  (r.1, r.2.1, !b.IsKnownLayout || r.2.2)

/-- From StructLayout.h line 117 (const member, body not in the
snapshot; per the spec it is pure and does not mutate the builder):
materialize the current fields as an anonymous struct type. The builder
state is returned unchanged alongside the result to make the frame
property expressible. -/
def getAsAnonStruct (b : StructLayoutBuilder) : LLVMType × StructLayoutBuilder :=
  (LLVMType.structTy b.StructFields, b)

/-- The named struct bodies of the backend module, for modelling
setAsBodyOfStruct. -/
structure ModuleTypes where
  bodies : List (Nat × List LLVMType)

/-- From StructLayout.h line 120 (const member, body not in the
snapshot; per the spec it fills a previously opaque handle with the
current fields as its body): the module environment gains the body, and
the builder state is returned unchanged alongside it. -/
def setAsBodyOfStruct (env : ModuleTypes) (b : StructLayoutBuilder) (type : Nat) :
    ModuleTypes × StructLayoutBuilder :=
  ({ bodies := (type, b.StructFields) :: env.bodies }, b)

/-- From StructLayout.h lines 124 to 128: the finalized layout. -/
structure StructLayout where
  Align : Nat
  TotalSize : Nat
  Ty : LLVMType
  Elements : List ElementLayout

/-- From StructLayout.h lines 144 to 148: create a structure layout from
a builder, copying its alignment and size. -/
def StructLayout.fromBuilder (builder : StructLayoutBuilder) (type : LLVMType)
    (elements : List ElementLayout) : StructLayout :=
  { Align := builder.getAlignment, TotalSize := builder.getSize,
    Ty := type, Elements := elements }

/-- Modelled from the spec, section 4.4 (constructor body in
StructLayout.cpp, not in the snapshot): full computation builds a fresh
builder, adds the heap header iff the kind is HeapObject, adds all the
fields in one batch under the given strategy, then either fills the
supplied opaque handle or synthesizes an anonymous aggregate, and copies
the final size, alignment and element records into the result. -/
def StructLayout.compute (IGM : IRGenModule) (kind : LayoutKind)
    (strategy : LayoutStrategy) (fields : List TypeInfo)
    (typeToFill : Option Nat) : StructLayout :=
  let b0 := StructLayoutBuilder.init
  let b1 :=
    match kind with
    | .HeapObject => addHeapHeader IGM b0
    | .NonHeapObject => b0
  let r := addFields b1 fields strategy
  { Align := r.1.getAlignment,
    TotalSize := r.1.getSize,
    Ty :=
      match typeToFill with
      | some n => LLVMType.namedTy n
      | none => LLVMType.structTy r.1.StructFields,
    Elements := r.2.1 }

/-- From StructLayout.h line 154. -/
def StructLayout.getSize (l : StructLayout) : Nat := l.TotalSize

/-- From StructLayout.h line 155. -/
def StructLayout.getAlignment (l : StructLayout) : Nat := l.Align

/-- From StructLayout.h line 156: empty iff the total size is zero. -/
def StructLayout.empty (l : StructLayout) : Bool := l.TotalSize == 0

/-- From StructLayout.h line 158: hasStaticLayout returns true,
unconditionally. -/
def StructLayout.hasStaticLayout (_ : StructLayout) : Bool := true

/-- Modelled from the spec, section 4.4: emitSize always emits the total
size as a compile-time constant (the body in StructLayout.cpp is not in
the snapshot). -/
def StructLayout.emitSize (l : StructLayout) : LLVMValue := .constVal l.TotalSize

/-- Modelled from the spec, section 4.4: emitAlign always emits the
alignment as a compile-time constant. -/
def StructLayout.emitAlign (l : StructLayout) : LLVMValue := .constVal l.Align

/-- One mutating call on a builder: addHeapHeader or one addFields
batch. -/
inductive BuilderOp where
  | heapHeader : BuilderOp
  | fields : List TypeInfo → LayoutStrategy → BuilderOp

/-- Whether an op is the addHeapHeader call. -/
def BuilderOp.isHeader : BuilderOp → Bool
  | .heapHeader => true
  | .fields _ _ => false

/-- The field descriptors an op carries. -/
def BuilderOp.fieldTIs : BuilderOp → List TypeInfo
  | .heapHeader => []
  | .fields tis _ => tis

/-- Apply one builder call. -/
def runOp (IGM : IRGenModule) (b : StructLayoutBuilder) : BuilderOp → StructLayoutBuilder
  | .heapHeader => addHeapHeader IGM b
  | .fields tis strategy => (addFields b tis strategy).1

/-- Apply a sequence of builder calls. -/
def runOps (IGM : IRGenModule) (b : StructLayoutBuilder) : List BuilderOp → StructLayoutBuilder
  | [] => b
  | op :: ops => runOps IGM (runOp IGM b op) ops

end IRGenModel

namespace IRGenModel

/-! Helper lemmas about the rounding primitive. -/

/-- Rounding up lands on a multiple of the alignment. -/
theorem roundUpToAlignment_mod (x : Nat) {a : Nat} (ha : 0 < a) :
    roundUpToAlignment x a % a = 0 := by
  unfold roundUpToAlignment
  cases h0 : x % a with
  | zero => simp [h0, Nat.mod_self]
  | succ r =>
      have hlt : x % a < a := Nat.mod_lt _ ha
      rw [h0] at hlt
      have h2 : (a - (r + 1)) % a = a - (r + 1) := Nat.mod_eq_of_lt (by omega)
      rw [h2, Nat.add_mod, h0, h2]
      have h4 : r + 1 + (a - (r + 1)) = a := by omega
      rw [h4, Nat.mod_self]

/-- Rounding up an already aligned offset is the identity. -/
theorem roundUpToAlignment_of_mod_eq_zero {x a : Nat} (h : x % a = 0) :
    roundUpToAlignment x a = x := by
  unfold roundUpToAlignment
  rw [h, Nat.sub_zero, Nat.mod_self, Nat.add_zero]

/-- Rounding up never shrinks the offset. -/
theorem le_roundUpToAlignment (x a : Nat) : x ≤ roundUpToAlignment x a :=
  Nat.le_add_right _ _

/-- C6: for every offset and every valid (positive, power-of-two)
alignment, roundUpToAlignment applied twice with the same alignment
yields the same result as applying it once: it is idempotent in its
offset argument. -/
theorem C6_roundUpToAlignment_idempotent (offset align : Nat)
    (hpos : 0 < align) (_hpow : ∃ k, align = 2 ^ k) :
    roundUpToAlignment (roundUpToAlignment offset align) align
      = roundUpToAlignment offset align :=
  roundUpToAlignment_of_mod_eq_zero (roundUpToAlignment_mod offset hpos)

/-- C6 witness: the idempotence theorem applied at offset 5 and
alignment 4. -/
theorem C6_witness :
    0 < 4 ∧ (∃ k, (4 : Nat) = 2 ^ k) ∧
    roundUpToAlignment (roundUpToAlignment 5 4) 4 = roundUpToAlignment 5 4 :=
  ⟨by decide, ⟨2, by decide⟩,
    C6_roundUpToAlignment_idempotent 5 4 (by decide) ⟨2, by decide⟩⟩

/-- C1: every finalized StructLayout, however constructed (full
computation via StructLayout.compute or wrapping any builder via
StructLayout.fromBuilder, including a builder whose hasKnownLayout is
false), reports hasStaticLayout true, and emitSize and emitAlign emit
compile-time-constant values. -/
theorem C1_hasStaticLayout_always :
    (∀ l : StructLayout,
        l.hasStaticLayout = true
        ∧ l.emitSize.isCompileTimeConstant = true
        ∧ l.emitAlign.isCompileTimeConstant = true)
    ∧ (∀ (IGM : IRGenModule) (kind : LayoutKind) (strategy : LayoutStrategy)
        (fields : List TypeInfo) (typeToFill : Option Nat),
        (StructLayout.compute IGM kind strategy fields typeToFill).hasStaticLayout = true
        ∧ (StructLayout.compute IGM kind strategy fields typeToFill).emitSize.isCompileTimeConstant = true
        ∧ (StructLayout.compute IGM kind strategy fields typeToFill).emitAlign.isCompileTimeConstant = true)
    ∧ (∀ (bld : StructLayoutBuilder) (ty : LLVMType) (elts : List ElementLayout),
        (StructLayout.fromBuilder bld ty elts).hasStaticLayout = true
        ∧ (StructLayout.fromBuilder bld ty elts).emitSize.isCompileTimeConstant = true
        ∧ (StructLayout.fromBuilder bld ty elts).emitAlign.isCompileTimeConstant = true) :=
  ⟨fun _ => ⟨rfl, rfl, rfl⟩,
   fun _ _ _ _ _ => ⟨rfl, rfl, rfl⟩,
   fun _ _ _ => ⟨rfl, rfl, rfl⟩⟩

/-- C5: a builder is empty iff the layout is statically known and of
zero size; a finalized layout is empty iff it is statically known
(hasStaticLayout) and of zero size; and empty is false immediately after
addHeapHeader on a fresh builder (given the header has nonzero size). -/
theorem C5_empty_characterization (b : StructLayoutBuilder) (l : StructLayout)
    (IGM : IRGenModule) (hh : 0 < IGM.heapHeaderSize) :
    (b.empty = true ↔ (b.hasKnownLayout = true ∧ b.getSize = 0))
    ∧ (l.empty = true ↔ (l.hasStaticLayout = true ∧ l.getSize = 0))
    ∧ (addHeapHeader IGM StructLayoutBuilder.init).empty = false := by
  refine ⟨?_, ?_, ?_⟩
  · simp [StructLayoutBuilder.empty, StructLayoutBuilder.hasKnownLayout,
      StructLayoutBuilder.getSize]
  · simp [StructLayout.empty, StructLayout.hasStaticLayout, StructLayout.getSize]
  · simp [StructLayoutBuilder.empty, addHeapHeader, StructLayoutBuilder.init]
    omega

/-- C5 witness: the characterization applied to the fresh builder, a
concrete finalized layout, and the header configuration (16, 8). -/
theorem C5_witness :
    (StructLayoutBuilder.init.empty = true
      ↔ (StructLayoutBuilder.init.hasKnownLayout = true ∧ StructLayoutBuilder.init.getSize = 0))
    ∧ ((StructLayout.fromBuilder StructLayoutBuilder.init (LLVMType.structTy []) []).empty = true
      ↔ ((StructLayout.fromBuilder StructLayoutBuilder.init (LLVMType.structTy []) []).hasStaticLayout = true
          ∧ (StructLayout.fromBuilder StructLayoutBuilder.init (LLVMType.structTy []) []).getSize = 0))
    ∧ (addHeapHeader ⟨16, 8⟩ StructLayoutBuilder.init).empty = false :=
  C5_empty_characterization StructLayoutBuilder.init
    (StructLayout.fromBuilder StructLayoutBuilder.init (LLVMType.structTy []) [])
    ⟨16, 8⟩ (by decide)

/-- C10: setAsBodyOfStruct and getAsAnonStruct leave the builder state
unchanged: getStructFields, getSize, getAlignment, hasKnownLayout and
empty all return the same values after the call as before it. -/
theorem C10_struct_materialization_frame (b : StructLayoutBuilder)
    (env : ModuleTypes) (ty : Nat) :
    (setAsBodyOfStruct env b ty).2.getStructFields = b.getStructFields
    ∧ (setAsBodyOfStruct env b ty).2.getSize = b.getSize
    ∧ (setAsBodyOfStruct env b ty).2.getAlignment = b.getAlignment
    ∧ (setAsBodyOfStruct env b ty).2.hasKnownLayout = b.hasKnownLayout
    ∧ (setAsBodyOfStruct env b ty).2.empty = b.empty
    ∧ (getAsAnonStruct b).2.getStructFields = b.getStructFields
    ∧ (getAsAnonStruct b).2.getSize = b.getSize
    ∧ (getAsAnonStruct b).2.getAlignment = b.getAlignment
    ∧ (getAsAnonStruct b).2.hasKnownLayout = b.hasKnownLayout
    ∧ (getAsAnonStruct b).2.empty = b.empty :=
  ⟨rfl, rfl, rfl, rfl, rfl, rfl, rfl, rfl, rfl, rfl⟩

/-! Preservation of the lost-knowledge state. -/

/-- Once the builder is not known, absorbing a field goes through the
unknown path. -/
theorem addField_of_known_false (b : StructLayoutBuilder) (ti : TypeInfo)
    (h : b.IsKnownLayout = false) : addField b ti = unknownResult b ti := by
  simp [addField, h]

/-- A whole batch absorbed by an unknown builder leaves it unknown and
gives every element the sentinel index and no offset. -/
theorem addFieldsSeq_of_known_false (tis : List TypeInfo) (b : StructLayoutBuilder)
    (h : b.IsKnownLayout = false) :
    (addFieldsSeq b tis).1.IsKnownLayout = false
    ∧ ∀ e ∈ (addFieldsSeq b tis).2.1,
        e.StructIndex = NoStructIndex ∧ e.ByteOffset = none := by
  induction tis generalizing b with
  | nil =>
      refine ⟨by simpa [addFieldsSeq] using h, ?_⟩
      intro e he
      simp [addFieldsSeq] at he
  | cons ti rest ih =>
      have h1 : addField b ti = unknownResult b ti := addField_of_known_false b ti h
      have h2 : (unknownResult b ti).1.IsKnownLayout = false := rfl
      have ih2 := ih (unknownResult b ti).1 h2
      constructor
      · simpa [addFieldsSeq, h1] using ih2.1
      · intro e he
        simp only [addFieldsSeq, h1, List.mem_cons] at he
        rcases he with he | he
        · subst he; exact ⟨rfl, rfl⟩
        · exact ih2.2 e he

/-- Every single builder call preserves the lost-knowledge state. -/
theorem runOp_known_false (IGM : IRGenModule) (b : StructLayoutBuilder)
    (op : BuilderOp) (h : b.IsKnownLayout = false) :
    (runOp IGM b op).IsKnownLayout = false := by
  cases op with
  | heapHeader => simpa [runOp, addHeapHeader] using h
  | fields tis strategy =>
      simp only [runOp, addFields]
      exact (addFieldsSeq_of_known_false _ _ h).1

/-- C3: once hasKnownLayout is false on a builder, it stays false across
every later addHeapHeader or addFields call, whatever the fixedness of
the fields added afterwards. -/
theorem C3_hasKnownLayout_monotone (IGM : IRGenModule) (b : StructLayoutBuilder)
    (ops : List BuilderOp) (h : b.hasKnownLayout = false) :
    (runOps IGM b ops).hasKnownLayout = false := by
  have hk : b.IsKnownLayout = false := h
  clear h
  induction ops generalizing b with
  | nil => simpa [runOps, StructLayoutBuilder.hasKnownLayout] using hk
  | cons op rest ih => exact ih _ (runOp_known_false IGM b op hk)

/-- C3 witness: a builder that lost knowledge through a non-fixed field
stays unknown after a further batch of fixed fields. -/
theorem C3_witness :
    (runOps ⟨16, 8⟩
      (addFields StructLayoutBuilder.init [⟨0, none, none⟩] LayoutStrategy.Universal).1
      [BuilderOp.fields [⟨1, some 4, some 4⟩] LayoutStrategy.Universal]).hasKnownLayout
    = false :=
  C3_hasKnownLayout_monotone _ _ _ (by decide)

end IRGenModel

namespace IRGenModel

/-- The reference computation named by the claims: simple sequential
accumulation in declaration order over (size, alignment) pairs, with
off = roundUpToAlignment(size, align) and size = off + fieldSize; it
returns the list of offsets and the final size. -/
def seqAccum (sz : Nat) : List (Nat × Nat) → List Nat × Nat
  | [] => ([], sz)
  | p :: rest =>
      let off := roundUpToAlignment sz p.2
      let r := seqAccum (off + p.1) rest
      (off :: r.1, r.2)

/-- Unfolding addField on a known builder and a fixed field. -/
theorem addField_fixed (b : StructLayoutBuilder) (ti : TypeInfo) (s a : Nat)
    (hb : b.IsKnownLayout = true) (hs : ti.fixedSize? = some s)
    (ha : ti.fixedAlignment? = some a) :
    addField b ti =
      ({ StructFields :=
           if s == 0 then b.StructFields else b.StructFields ++ [LLVMType.fieldTy ti],
         CurSize := roundUpToAlignment b.CurSize a + s,
         CurAlignment := max b.CurAlignment a,
         IsKnownLayout := true },
       { ByteOffset := some (roundUpToAlignment b.CurSize a),
         StructIndex := if s == 0 then NoStructIndex else b.StructFields.length,
         typeInfo := ti },
       decide (b.CurSize < roundUpToAlignment b.CurSize a + s)) := by
  simp [addField, hb, hs, ha]

/-- Workhorse: a batch of fixed fields absorbed by a known builder stays
known, reaches exactly the sequentially accumulated size, records
exactly the sequentially accumulated offsets in processed order, keeps
the descriptors in processed order, and maxes the alignment over the
batch. -/
theorem addFieldsSeq_fixed (tis : List TypeInfo) (b : StructLayoutBuilder)
    (hb : b.IsKnownLayout = true) (hfix : ∀ ti ∈ tis, ti.isFixed = true) :
    (addFieldsSeq b tis).1.IsKnownLayout = true
    ∧ (addFieldsSeq b tis).1.CurSize
        = (seqAccum b.CurSize (tis.map fun ti => (ti.fixedSizeValue, ti.fixedAlignValue))).2
    ∧ (addFieldsSeq b tis).2.1.map ElementLayout.ByteOffset
        = ((seqAccum b.CurSize (tis.map fun ti => (ti.fixedSizeValue, ti.fixedAlignValue))).1).map some
    ∧ (addFieldsSeq b tis).2.1.map ElementLayout.typeInfo = tis
    ∧ (addFieldsSeq b tis).1.CurAlignment
        = tis.foldl (fun m ti => max m ti.fixedAlignValue) b.CurAlignment := by
  induction tis generalizing b with
  | nil => exact ⟨hb, rfl, rfl, rfl, rfl⟩
  | cons ti rest ih =>
      have hfx := hfix ti (List.mem_cons_self ti rest)
      rw [TypeInfo.isFixed, Bool.and_eq_true] at hfx
      obtain ⟨s, hs⟩ := Option.isSome_iff_exists.mp hfx.1
      obtain ⟨a, ha⟩ := Option.isSome_iff_exists.mp hfx.2
      have hsv : ti.fixedSizeValue = s := by simp [TypeInfo.fixedSizeValue, hs]
      have hav : ti.fixedAlignValue = a := by simp [TypeInfo.fixedAlignValue, ha]
      have ihx := ih
        { StructFields :=
            if s == 0 then b.StructFields else b.StructFields ++ [LLVMType.fieldTy ti],
          CurSize := roundUpToAlignment b.CurSize a + s,
          CurAlignment := max b.CurAlignment a,
          IsKnownLayout := true }
        rfl (fun t ht => hfix t (List.mem_cons_of_mem _ ht))
      simp only [beq_iff_eq] at ihx
      simp only [addFieldsSeq, addField_fixed b ti s a hb hs ha, List.map_cons, hsv, hav,
        seqAccum, List.foldl_cons, beq_iff_eq]
      exact ⟨ihx.1, ihx.2.1, by rw [ihx.2.2.1], by rw [ihx.2.2.2.1], ihx.2.2.2.2⟩

/-- C2: on a known builder, a batch of fields whose size and alignment
are all statically fixed, added under the Universal strategy, yields
element order and byte offsets equal to simple sequential accumulation
in declaration order, with the accumulated final size; in particular for
fields of (size, alignment) = (4,4), (1,1), (4,4) the offsets are 0, 4,
8, the total size 12 and the alignment 4. -/
theorem C2_universal_is_sequential_accumulation (b : StructLayoutBuilder)
    (tis : List TypeInfo) (hb : b.hasKnownLayout = true)
    (hfix : ∀ ti ∈ tis, ti.isFixed = true) :
    ((addFields b tis LayoutStrategy.Universal).2.1.map ElementLayout.ByteOffset
        = ((seqAccum b.getSize (tis.map fun ti => (ti.fixedSizeValue, ti.fixedAlignValue))).1).map some
      ∧ (addFields b tis LayoutStrategy.Universal).2.1.map ElementLayout.typeInfo = tis
      ∧ (addFields b tis LayoutStrategy.Universal).1.getSize
        = (seqAccum b.getSize (tis.map fun ti => (ti.fixedSizeValue, ti.fixedAlignValue))).2)
    ∧ ((addFields StructLayoutBuilder.init
          [⟨0, some 4, some 4⟩, ⟨1, some 1, some 1⟩, ⟨2, some 4, some 4⟩]
          LayoutStrategy.Universal).2.1.map ElementLayout.ByteOffset
        = [some 0, some 4, some 8]
      ∧ (addFields StructLayoutBuilder.init
          [⟨0, some 4, some 4⟩, ⟨1, some 1, some 1⟩, ⟨2, some 4, some 4⟩]
          LayoutStrategy.Universal).1.getSize = 12
      ∧ (addFields StructLayoutBuilder.init
          [⟨0, some 4, some 4⟩, ⟨1, some 1, some 1⟩, ⟨2, some 4, some 4⟩]
          LayoutStrategy.Universal).1.getAlignment = 4) := by
  have h := addFieldsSeq_fixed tis b hb hfix
  refine ⟨⟨?_, ?_, ?_⟩, by decide, by decide, by decide⟩
  · simpa [addFields, StructLayoutBuilder.getSize] using h.2.2.1
  · simpa [addFields] using h.2.2.2.1
  · simpa [addFields, StructLayoutBuilder.getSize] using h.2.1

/-- C2 witness: the general refinement applied to the concrete scenario
of the claim. -/
theorem C2_witness :
    StructLayoutBuilder.init.hasKnownLayout = true
    ∧ (∀ ti ∈ ([⟨0, some 4, some 4⟩, ⟨1, some 1, some 1⟩, ⟨2, some 4, some 4⟩] : List TypeInfo),
        ti.isFixed = true)
    ∧ (addFields StructLayoutBuilder.init
        [⟨0, some 4, some 4⟩, ⟨1, some 1, some 1⟩, ⟨2, some 4, some 4⟩]
        LayoutStrategy.Universal).2.1.map ElementLayout.ByteOffset
      = ((seqAccum StructLayoutBuilder.init.getSize
          (([⟨0, some 4, some 4⟩, ⟨1, some 1, some 1⟩, ⟨2, some 4, some 4⟩] : List TypeInfo).map
            fun ti => (ti.fixedSizeValue, ti.fixedAlignValue))).1).map some :=
  ⟨by decide, by decide,
    (C2_universal_is_sequential_accumulation StructLayoutBuilder.init
      [⟨0, some 4, some 4⟩, ⟨1, some 1, some 1⟩, ⟨2, some 4, some 4⟩]
      (by decide) (by decide)).1.1⟩

end IRGenModel

namespace IRGenModel

/-- The final size of sequential accumulation agrees with the running
total read through the fixed-value accessors. -/
theorem seqAccum_snd_eq_layoutSizeFixed (tis : List TypeInfo) (sz : Nat) :
    (seqAccum sz (tis.map fun ti => (ti.fixedSizeValue, ti.fixedAlignValue))).2
      = layoutSizeFixed sz tis := by
  induction tis generalizing sz with
  | nil => rfl
  | cons ti rest ih =>
      simp only [List.map_cons, seqAccum, layoutSizeFixed, List.foldl_cons]
      exact ih _

/-- The fold that picks the smaller candidate returns the seed or one of
the candidates. -/
theorem foldl_pickSmaller_mem (sz : Nat) (l : List (List TypeInfo))
    (seed : List TypeInfo) : l.foldl (pickSmaller sz) seed ∈ seed :: l := by
  induction l generalizing seed with
  | nil => simp [List.foldl]
  | cons x xs ih =>
      rw [List.foldl_cons]
      rcases List.mem_cons.mp (ih (pickSmaller sz seed x)) with h1 | h2
      · rw [h1]
        unfold pickSmaller
        split
        · exact List.mem_cons_of_mem _ (List.mem_cons_self _ _)
        · exact List.mem_cons_self _ _
      · exact List.mem_cons_of_mem _ (List.mem_cons_of_mem _ h2)

/-- The fold that picks the smaller candidate never exceeds the size of
the seed. -/
theorem foldl_pickSmaller_le (sz : Nat) (l : List (List TypeInfo))
    (seed : List TypeInfo) :
    layoutSizeFixed sz (l.foldl (pickSmaller sz) seed) ≤ layoutSizeFixed sz seed := by
  induction l generalizing seed with
  | nil => exact Nat.le_refl _
  | cons x xs ih =>
      rw [List.foldl_cons]
      refine Nat.le_trans (ih (pickSmaller sz seed x)) ?_
      unfold pickSmaller
      split
      next h => exact Nat.le_of_lt h
      next => exact Nat.le_refl _

/-- The order chosen by the Optimal strategy is a permutation of the
batch. -/
theorem optimalOrder_perm (sz : Nat) (tis : List TypeInfo) :
    List.Perm (optimalOrder sz tis) tis := by
  rcases List.mem_cons.mp (foldl_pickSmaller_mem sz tis.permutations tis) with h1 | h2
  · rw [optimalOrder, h1]
  · exact List.mem_permutations.mp h2

/-- The order chosen by the Optimal strategy is no larger than the
declaration order. -/
theorem optimalOrder_size_le (sz : Nat) (tis : List TypeInfo) :
    layoutSizeFixed sz (optimalOrder sz tis) ≤ layoutSizeFixed sz tis :=
  foldl_pickSmaller_le sz tis.permutations tis

/-- C4: on a known builder, for a batch of fields whose size and
alignment are all statically fixed, the total size after addFields under
the Optimal strategy is at most the total size under the Universal
strategy for the same field set. -/
theorem C4_optimal_size_le_universal (b : StructLayoutBuilder)
    (tis : List TypeInfo) (hb : b.hasKnownLayout = true)
    (hfix : ∀ ti ∈ tis, ti.isFixed = true) :
    (addFields b tis LayoutStrategy.Optimal).1.getSize
      ≤ (addFields b tis LayoutStrategy.Universal).1.getSize := by
  have hfilter1 : tis.filter (fun ti => ti.isFixed) = tis :=
    List.filter_eq_self.mpr hfix
  have hfilter2 : tis.filter (fun ti => !ti.isFixed) = [] := by
    rw [List.filter_eq_nil_iff]
    intro a ha
    simp [hfix a ha]
  have hperm := optimalOrder_perm b.CurSize tis
  have hfix2 : ∀ ti ∈ optimalOrder b.CurSize tis, ti.isFixed = true :=
    fun ti ht => hfix ti (hperm.mem_iff.mp ht)
  have h1 := addFieldsSeq_fixed (optimalOrder b.CurSize tis) b hb hfix2
  have h2 := addFieldsSeq_fixed tis b hb hfix
  simp only [addFields, hfilter1, hfilter2, List.append_nil, StructLayoutBuilder.getSize]
  rw [h1.2.1, h2.2.1, seqAccum_snd_eq_layoutSizeFixed, seqAccum_snd_eq_layoutSizeFixed]
  exact optimalOrder_size_le b.CurSize tis

/-- C4 witness: the claim applied to the concrete field set (4,4),
(1,1), (4,4) on a fresh builder. -/
theorem C4_witness :
    StructLayoutBuilder.init.hasKnownLayout = true
    ∧ (addFields StructLayoutBuilder.init
        [⟨0, some 4, some 4⟩, ⟨1, some 1, some 1⟩, ⟨2, some 4, some 4⟩]
        LayoutStrategy.Optimal).1.getSize
      ≤ (addFields StructLayoutBuilder.init
        [⟨0, some 4, some 4⟩, ⟨1, some 1, some 1⟩, ⟨2, some 4, some 4⟩]
        LayoutStrategy.Universal).1.getSize :=
  ⟨by decide,
    C4_optimal_size_le_universal StructLayoutBuilder.init
      [⟨0, some 4, some 4⟩, ⟨1, some 1, some 1⟩, ⟨2, some 4, some 4⟩]
      (by decide) (by decide)⟩

end IRGenModel

namespace IRGenModel

/-- A field without fixed size and alignment always goes through the
unknown path, whatever the builder state. -/
theorem addField_of_not_fixed (b : StructLayoutBuilder) (ti : TypeInfo)
    (h : ti.isFixed = false) : addField b ti = unknownResult b ti := by
  rw [TypeInfo.isFixed] at h
  cases hs : ti.fixedSize? with
  | none => simp [addField, hs]
  | some s =>
      cases ha : ti.fixedAlignment? with
      | none => simp [addField, hs, ha]
      | some a => rw [hs, ha] at h; simp at h

/-- A batch containing a not-fixed field reports that storage may have
grown. -/
theorem addFieldsSeq_grew_of_not_fixed (tis : List TypeInfo)
    (b : StructLayoutBuilder) (h : ∃ ti ∈ tis, ti.isFixed = false) :
    (addFieldsSeq b tis).2.2 = true := by
  induction tis generalizing b with
  | nil => rcases h with ⟨ti, hmem, _⟩; simp at hmem
  | cons t rest ih =>
      rcases h with ⟨ti, hmem, hnf⟩
      rcases List.mem_cons.mp hmem with h1 | h2
      · subst h1
        simp [addFieldsSeq, addField_of_not_fixed b ti hnf, unknownResult]
      · have := ih (addField b t).1 ⟨ti, h2, hnf⟩
        simp [addFieldsSeq, this]

/-- A batch containing a not-fixed field leaves the builder unknown. -/
theorem addFieldsSeq_known_false_of_not_fixed (tis : List TypeInfo)
    (b : StructLayoutBuilder) (h : ∃ ti ∈ tis, ti.isFixed = false) :
    (addFieldsSeq b tis).1.IsKnownLayout = false := by
  induction tis generalizing b with
  | nil => rcases h with ⟨ti, hmem, _⟩; simp at hmem
  | cons t rest ih =>
      rcases h with ⟨ti, hmem, hnf⟩
      rcases List.mem_cons.mp hmem with h1 | h2
      · subst h1
        have hu : (addField b ti).1.IsKnownLayout = false := by
          rw [addField_of_not_fixed b ti hnf]; rfl
        simp only [addFieldsSeq]
        exact (addFieldsSeq_of_known_false rest _ hu).1
      · simp only [addFieldsSeq]
        exact ih _ ⟨ti, h2, hnf⟩

/-- Sequential absorption splits over list append. -/
theorem addFieldsSeq_append (l1 l2 : List TypeInfo) (b : StructLayoutBuilder) :
    addFieldsSeq b (l1 ++ l2)
      = ((addFieldsSeq (addFieldsSeq b l1).1 l2).1,
         (addFieldsSeq b l1).2.1 ++ (addFieldsSeq (addFieldsSeq b l1).1 l2).2.1,
         ((addFieldsSeq b l1).2.2 || (addFieldsSeq (addFieldsSeq b l1).1 l2).2.2)) := by
  induction l1 generalizing b with
  | nil => simp [addFieldsSeq]
  | cons t rest ih =>
      simp only [List.cons_append, addFieldsSeq, List.append_eq]
      rw [ih]
      simp [Bool.or_assoc]

/-- One element record is produced per field absorbed. -/
theorem addFieldsSeq_length (tis : List TypeInfo) (b : StructLayoutBuilder) :
    (addFieldsSeq b tis).2.1.length = tis.length := by
  induction tis generalizing b with
  | nil => rfl
  | cons t rest ih => simp [addFieldsSeq, ih]

/-- C8: under any strategy, a batch containing a field without fixed
size/alignment leaves hasKnownLayout false and reports that storage may
have grown; a batch added after knowledge was lost reports growth and
gives every element the sentinel index and no offset; and in the
processed sequence, the not-fixed field itself and every field after it
receive the sentinel index and no computed byte offset. -/
theorem C8_not_fixed_sentinel (b : StructLayoutBuilder)
    (strategy : LayoutStrategy) (tis tis1 tis2 : List TypeInfo)
    (ti : TypeInfo) :
    ((∃ t ∈ tis, t.isFixed = false) →
        (addFields b tis strategy).1.hasKnownLayout = false
        ∧ (addFields b tis strategy).2.2 = true)
    ∧ (b.hasKnownLayout = false →
        (addFields b tis strategy).2.2 = true
        ∧ ∀ e ∈ (addFields b tis strategy).2.1,
            e.StructIndex = NoStructIndex ∧ e.ByteOffset = none)
    ∧ (ti.isFixed = false →
        ∀ e ∈ ((addFieldsSeq b (tis1 ++ ti :: tis2)).2.1).drop tis1.length,
          e.StructIndex = NoStructIndex ∧ e.ByteOffset = none) := by
  refine ⟨?_, ?_, ?_⟩
  · rintro ⟨t, hmem, hnf⟩
    cases strategy with
    | Universal =>
        refine ⟨?_, ?_⟩
        · exact addFieldsSeq_known_false_of_not_fixed tis b ⟨t, hmem, hnf⟩
        · have := addFieldsSeq_grew_of_not_fixed tis b ⟨t, hmem, hnf⟩
          simp [addFields, this]
    | Optimal =>
        have hmem2 : t ∈ optimalOrder b.CurSize (tis.filter fun x => x.isFixed)
            ++ tis.filter (fun x => !x.isFixed) := by
          apply List.mem_append_right
          rw [List.mem_filter]
          exact ⟨hmem, by simp [hnf]⟩
        refine ⟨?_, ?_⟩
        · exact addFieldsSeq_known_false_of_not_fixed _ b ⟨t, hmem2, hnf⟩
        · have := addFieldsSeq_grew_of_not_fixed _ b ⟨t, hmem2, hnf⟩
          simp [addFields, this]
  · intro hk
    have hk2 : b.IsKnownLayout = false := hk
    refine ⟨by simp [addFields, hk2], ?_⟩
    intro e he
    cases strategy with
    | Universal => exact (addFieldsSeq_of_known_false tis b hk2).2 e he
    | Optimal => exact (addFieldsSeq_of_known_false _ b hk2).2 e he
  · intro hnf e he
    rw [addFieldsSeq_append] at he
    have hlen := addFieldsSeq_length tis1 b
    rw [← hlen, List.drop_left] at he
    have h1 : addField (addFieldsSeq b tis1).1 ti
        = unknownResult (addFieldsSeq b tis1).1 ti :=
      addField_of_not_fixed _ ti hnf
    simp only [addFieldsSeq, h1, List.mem_cons] at he
    rcases he with he | he
    · subst he; exact ⟨rfl, rfl⟩
    · exact (addFieldsSeq_of_known_false tis2 _ rfl).2 e he

/-- C8 witness: the claim applied to the spec scenario of a not-fixed
field followed by a fixed 4-byte field under the Universal strategy. -/
theorem C8_witness :
    (∃ t ∈ ([⟨0, none, none⟩, ⟨1, some 4, some 4⟩] : List TypeInfo),
        t.isFixed = false)
    ∧ (addFields StructLayoutBuilder.init
        [⟨0, none, none⟩, ⟨1, some 4, some 4⟩]
        LayoutStrategy.Universal).1.hasKnownLayout = false
    ∧ (addFields StructLayoutBuilder.init
        [⟨0, none, none⟩, ⟨1, some 4, some 4⟩]
        LayoutStrategy.Universal).2.2 = true
    ∧ ∀ e ∈ ((addFieldsSeq StructLayoutBuilder.init
          (([] : List TypeInfo) ++ ⟨0, none, none⟩ :: [⟨1, some 4, some 4⟩])).2.1).drop
        ([] : List TypeInfo).length,
        e.StructIndex = NoStructIndex ∧ e.ByteOffset = none := by
  have h := C8_not_fixed_sentinel StructLayoutBuilder.init LayoutStrategy.Universal
    [⟨0, none, none⟩, ⟨1, some 4, some 4⟩] [] [⟨1, some 4, some 4⟩] ⟨0, none, none⟩
  have hex : ∃ t ∈ ([⟨0, none, none⟩, ⟨1, some 4, some 4⟩] : List TypeInfo),
      t.isFixed = false := by decide
  exact ⟨hex, (h.1 hex).1, (h.1 hex).2, fun e he => h.2.2 (by decide) e he⟩

end IRGenModel

namespace IRGenModel

/-- Absorbing descriptors with the same capability data from builders
agreeing on size, alignment, knowledge and storage-slot count yields the
same offset, index, growth report, and agreeing builder state. -/
theorem addField_congr (b1 b2 : StructLayoutBuilder) (t1 t2 : TypeInfo)
    (hdata : t1.layoutData = t2.layoutData)
    (hs : b1.CurSize = b2.CurSize) (ha : b1.CurAlignment = b2.CurAlignment)
    (hk : b1.IsKnownLayout = b2.IsKnownLayout)
    (hl : b1.StructFields.length = b2.StructFields.length) :
    (addField b1 t1).1.CurSize = (addField b2 t2).1.CurSize
    ∧ (addField b1 t1).1.CurAlignment = (addField b2 t2).1.CurAlignment
    ∧ (addField b1 t1).1.IsKnownLayout = (addField b2 t2).1.IsKnownLayout
    ∧ (addField b1 t1).1.StructFields.length = (addField b2 t2).1.StructFields.length
    ∧ (addField b1 t1).2.1.ByteOffset = (addField b2 t2).2.1.ByteOffset
    ∧ (addField b1 t1).2.1.StructIndex = (addField b2 t2).2.1.StructIndex
    ∧ (addField b1 t1).2.2 = (addField b2 t2).2.2 := by
  rw [TypeInfo.layoutData, TypeInfo.layoutData, Prod.mk.injEq] at hdata
  obtain ⟨hds, hda⟩ := hdata
  cases hk1 : b1.IsKnownLayout with
  | false =>
      have hk2 : b2.IsKnownLayout = false := by rw [← hk, hk1]
      rw [addField_of_known_false b1 t1 hk1, addField_of_known_false b2 t2 hk2]
      simp [unknownResult, hs, ha, hl]
  | true =>
      have hk2 : b2.IsKnownLayout = true := by rw [← hk, hk1]
      cases hs1 : t1.fixedSize? with
      | none =>
          have hs2 : t2.fixedSize? = none := by rw [← hds, hs1]
          have hnf1 : t1.isFixed = false := by simp [TypeInfo.isFixed, hs1]
          have hnf2 : t2.isFixed = false := by simp [TypeInfo.isFixed, hs2]
          rw [addField_of_not_fixed b1 t1 hnf1, addField_of_not_fixed b2 t2 hnf2]
          simp [unknownResult, hs, ha, hl]
      | some s =>
          have hs2 : t2.fixedSize? = some s := by rw [← hds, hs1]
          cases ha1 : t1.fixedAlignment? with
          | none =>
              have ha2 : t2.fixedAlignment? = none := by rw [← hda, ha1]
              have hnf1 : t1.isFixed = false := by simp [TypeInfo.isFixed, ha1]
              have hnf2 : t2.isFixed = false := by simp [TypeInfo.isFixed, ha2]
              rw [addField_of_not_fixed b1 t1 hnf1, addField_of_not_fixed b2 t2 hnf2]
              simp [unknownResult, hs, ha, hl]
          | some a =>
              have ha2 : t2.fixedAlignment? = some a := by rw [← hda, ha1]
              rw [addField_fixed b1 t1 s a hk1 hs1 ha1,
                addField_fixed b2 t2 s a hk2 hs2 ha2]
              refine ⟨by rw [hs], by rw [ha], rfl, ?_, by rw [hs], ?_, by rw [hs]⟩
              · cases hss : (s == 0) <;> simp [hss, hl]
              · cases hss : (s == 0) <;> simp [hss, hl]

/-- Batch-level congruence: Universal layout depends only on the
sequence of capability data. -/
theorem addFieldsSeq_congr (tis1 : List TypeInfo) (tis2 : List TypeInfo)
    (b1 b2 : StructLayoutBuilder)
    (h : tis1.map TypeInfo.layoutData = tis2.map TypeInfo.layoutData)
    (hs : b1.CurSize = b2.CurSize) (ha : b1.CurAlignment = b2.CurAlignment)
    (hk : b1.IsKnownLayout = b2.IsKnownLayout)
    (hl : b1.StructFields.length = b2.StructFields.length) :
    (addFieldsSeq b1 tis1).1.CurSize = (addFieldsSeq b2 tis2).1.CurSize
    ∧ (addFieldsSeq b1 tis1).1.CurAlignment = (addFieldsSeq b2 tis2).1.CurAlignment
    ∧ (addFieldsSeq b1 tis1).1.IsKnownLayout = (addFieldsSeq b2 tis2).1.IsKnownLayout
    ∧ (addFieldsSeq b1 tis1).1.StructFields.length
        = (addFieldsSeq b2 tis2).1.StructFields.length
    ∧ (addFieldsSeq b1 tis1).2.1.map ElementLayout.ByteOffset
        = (addFieldsSeq b2 tis2).2.1.map ElementLayout.ByteOffset
    ∧ (addFieldsSeq b1 tis1).2.1.map ElementLayout.StructIndex
        = (addFieldsSeq b2 tis2).2.1.map ElementLayout.StructIndex
    ∧ (addFieldsSeq b1 tis1).2.2 = (addFieldsSeq b2 tis2).2.2 := by
  induction tis1 generalizing tis2 b1 b2 with
  | nil =>
      have h0 : tis2 = [] := by
        cases tis2 with
        | nil => rfl
        | cons _ _ => simp at h
      subst h0
      exact ⟨hs, ha, hk, hl, rfl, rfl, rfl⟩
  | cons t1 rest1 ih =>
      cases tis2 with
      | nil => simp at h
      | cons t2 rest2 =>
          simp only [List.map_cons, List.cons.injEq] at h
          obtain ⟨hdata, hrest⟩ := h
          have hstep := addField_congr b1 b2 t1 t2 hdata hs ha hk hl
          have ihx := ih rest2 (addField b1 t1).1 (addField b2 t2).1 hrest
            hstep.1 hstep.2.1 hstep.2.2.1 hstep.2.2.2.1
          simp only [addFieldsSeq, List.map_cons]
          exact ⟨ihx.1, ihx.2.1, ihx.2.2.1, ihx.2.2.2.1,
            by rw [hstep.2.2.2.2.1, ihx.2.2.2.2.1],
            by rw [hstep.2.2.2.2.2.1, ihx.2.2.2.2.2.1],
            by rw [hstep.2.2.2.2.2.2, ihx.2.2.2.2.2.2]⟩

/-- C9: layout computation under the Universal strategy is
deterministic: two runs from the fresh builder over descriptor sequences
with the same sizes and alignments (equal capability data) produce
identical element offsets, struct indices, total size, alignment and
growth report. -/
theorem C9_universal_deterministic (tis1 tis2 : List TypeInfo)
    (h : tis1.map TypeInfo.layoutData = tis2.map TypeInfo.layoutData) :
    (addFields StructLayoutBuilder.init tis1 LayoutStrategy.Universal).1.getSize
      = (addFields StructLayoutBuilder.init tis2 LayoutStrategy.Universal).1.getSize
    ∧ (addFields StructLayoutBuilder.init tis1 LayoutStrategy.Universal).1.getAlignment
      = (addFields StructLayoutBuilder.init tis2 LayoutStrategy.Universal).1.getAlignment
    ∧ (addFields StructLayoutBuilder.init tis1 LayoutStrategy.Universal).2.1.map ElementLayout.ByteOffset
      = (addFields StructLayoutBuilder.init tis2 LayoutStrategy.Universal).2.1.map ElementLayout.ByteOffset
    ∧ (addFields StructLayoutBuilder.init tis1 LayoutStrategy.Universal).2.1.map ElementLayout.StructIndex
      = (addFields StructLayoutBuilder.init tis2 LayoutStrategy.Universal).2.1.map ElementLayout.StructIndex
    ∧ (addFields StructLayoutBuilder.init tis1 LayoutStrategy.Universal).2.2
      = (addFields StructLayoutBuilder.init tis2 LayoutStrategy.Universal).2.2 := by
  have hc := addFieldsSeq_congr tis1 tis2 StructLayoutBuilder.init
    StructLayoutBuilder.init h rfl rfl rfl rfl
  refine ⟨?_, ?_, ?_, ?_, ?_⟩
  · simpa [addFields, StructLayoutBuilder.getSize] using hc.1
  · simpa [addFields, StructLayoutBuilder.getAlignment] using hc.2.1
  · simpa [addFields] using hc.2.2.2.2.1
  · simpa [addFields] using hc.2.2.2.2.2.1
  · simpa [addFields] using hc.2.2.2.2.2.2

/-- C9 witness: two descriptor sequences differing only in identity
yield identical total sizes. -/
theorem C9_witness :
    ([⟨0, some 4, some 4⟩, ⟨1, none, some 2⟩] : List TypeInfo).map TypeInfo.layoutData
      = ([⟨7, some 4, some 4⟩, ⟨9, none, some 2⟩] : List TypeInfo).map TypeInfo.layoutData
    ∧ (addFields StructLayoutBuilder.init [⟨0, some 4, some 4⟩, ⟨1, none, some 2⟩]
        LayoutStrategy.Universal).1.getSize
      = (addFields StructLayoutBuilder.init [⟨7, some 4, some 4⟩, ⟨9, none, some 2⟩]
        LayoutStrategy.Universal).1.getSize :=
  ⟨by decide,
    (C9_universal_deterministic [⟨0, some 4, some 4⟩, ⟨1, none, some 2⟩]
      [⟨7, some 4, some 4⟩, ⟨9, none, some 2⟩] (by decide)).1⟩

end IRGenModel

namespace IRGenModel

/-- The alignment the claim predicts for a builder after a sequence of
calls, folded from a start value: the running maximum of the heap header
alignment (when a header call occurs) and of the fixed alignments of
every field of every batch, in declaration order. -/
def claimedAlignmentFrom (IGM : IRGenModule) (start : Nat) (ops : List BuilderOp) : Nat :=
  ops.foldl (fun m op =>
    match op with
    | .heapHeader => max m IGM.heapHeaderAlignment
    | .fields tis _ => tis.foldl (fun m2 ti => max m2 ti.fixedAlignValue) m) start

/-- The alignment the claim predicts after a sequence of calls on a
fresh builder, starting from the initial 1-byte alignment. -/
def claimedAlignment (IGM : IRGenModule) (ops : List BuilderOp) : Nat :=
  claimedAlignmentFrom IGM 1 ops

/-- C7 counterexample: on a fresh builder, a batch holding one not-fixed
field followed by a batch holding a fixed field of alignment 8 leaves
getAlignment at 1, while the maximum of the alignments of all fields
absorbed, as the claim reads, is 8: the claimed invariant fails once a
fixed field is absorbed after static knowledge was lost. -/
theorem C7_counterexample :
    (runOps ⟨16, 8⟩ StructLayoutBuilder.init
        [BuilderOp.fields [⟨0, none, none⟩] LayoutStrategy.Universal,
         BuilderOp.fields [⟨1, some 4, some 8⟩] LayoutStrategy.Universal]).getAlignment = 1
    ∧ claimedAlignment ⟨16, 8⟩
        [BuilderOp.fields [⟨0, none, none⟩] LayoutStrategy.Universal,
         BuilderOp.fields [⟨1, some 4, some 8⟩] LayoutStrategy.Universal] = 8
    ∧ (1 : Nat) ≠ 8 :=
  ⟨by decide, by decide, by decide⟩

/-- Any strategy: a batch of fixed fields on a known builder keeps the
layout known and maxes the alignment over the batch in declaration
order (under Optimal the processed order is a permutation, and the
running maximum is order independent). -/
theorem addFields_fixed_alignment (b : StructLayoutBuilder) (tis : List TypeInfo)
    (strategy : LayoutStrategy) (hb : b.IsKnownLayout = true)
    (hfix : ∀ ti ∈ tis, ti.isFixed = true) :
    (addFields b tis strategy).1.IsKnownLayout = true
    ∧ (addFields b tis strategy).1.CurAlignment
        = tis.foldl (fun m ti => max m ti.fixedAlignValue) b.CurAlignment := by
  cases strategy with
  | Universal =>
      have h := addFieldsSeq_fixed tis b hb hfix
      exact ⟨by simpa [addFields] using h.1, by simpa [addFields] using h.2.2.2.2⟩
  | Optimal =>
      have hfilter1 : tis.filter (fun x => x.isFixed) = tis :=
        List.filter_eq_self.mpr hfix
      have hfilter2 : tis.filter (fun x => !x.isFixed) = [] := by
        rw [List.filter_eq_nil_iff]
        intro a ha
        simp [hfix a ha]
      have hperm := optimalOrder_perm b.CurSize tis
      have hfix2 : ∀ ti ∈ optimalOrder b.CurSize tis, ti.isFixed = true :=
        fun ti ht => hfix ti (hperm.mem_iff.mp ht)
      have h := addFieldsSeq_fixed (optimalOrder b.CurSize tis) b hb hfix2
      constructor
      · simp only [addFields, hfilter1, hfilter2, List.append_nil]
        exact h.1
      · simp only [addFields, hfilter1, hfilter2, List.append_nil]
        rw [h.2.2.2.2]
        exact hperm.foldl_eq'
          (fun x _hx y _hy z => by
            rw [max_assoc, max_comm x.fixedAlignValue y.fixedAlignValue, ← max_assoc]) _

/-- Absorbing one field never shrinks the builder size or alignment. -/
theorem addField_mono (b : StructLayoutBuilder) (ti : TypeInfo) :
    b.CurSize ≤ (addField b ti).1.CurSize
    ∧ b.CurAlignment ≤ (addField b ti).1.CurAlignment := by
  by_cases hk : b.IsKnownLayout = true
  · cases hs : ti.fixedSize? with
    | none =>
        have hnf : ti.isFixed = false := by simp [TypeInfo.isFixed, hs]
        rw [addField_of_not_fixed b ti hnf]
        exact ⟨Nat.le_refl _, Nat.le_refl _⟩
    | some s =>
        cases ha : ti.fixedAlignment? with
        | none =>
            have hnf : ti.isFixed = false := by simp [TypeInfo.isFixed, ha]
            rw [addField_of_not_fixed b ti hnf]
            exact ⟨Nat.le_refl _, Nat.le_refl _⟩
        | some a =>
            rw [addField_fixed b ti s a hk hs ha]
            exact ⟨Nat.le_trans (le_roundUpToAlignment _ _) (Nat.le_add_right _ _),
              Nat.le_max_left _ _⟩
  · have hk2 : b.IsKnownLayout = false := by simpa using hk
    rw [addField_of_known_false b ti hk2]
    exact ⟨Nat.le_refl _, Nat.le_refl _⟩

/-- Absorbing a batch never shrinks the builder size or alignment. -/
theorem addFieldsSeq_mono (tis : List TypeInfo) (b : StructLayoutBuilder) :
    b.CurSize ≤ (addFieldsSeq b tis).1.CurSize
    ∧ b.CurAlignment ≤ (addFieldsSeq b tis).1.CurAlignment := by
  induction tis generalizing b with
  | nil => exact ⟨Nat.le_refl _, Nat.le_refl _⟩
  | cons t rest ih =>
      have h1 := addField_mono b t
      have h2 := ih (addField b t).1
      simp only [addFieldsSeq]
      exact ⟨Nat.le_trans h1.1 h2.1, Nat.le_trans h1.2 h2.2⟩

/-- addFields never shrinks the builder size or alignment. -/
theorem addFields_mono (b : StructLayoutBuilder) (tis : List TypeInfo)
    (strategy : LayoutStrategy) :
    b.CurSize ≤ (addFields b tis strategy).1.CurSize
    ∧ b.CurAlignment ≤ (addFields b tis strategy).1.CurAlignment := by
  cases strategy with
  | Universal => simpa [addFields] using addFieldsSeq_mono tis b
  | Optimal => simpa [addFields] using addFieldsSeq_mono _ b

/-- A header-free run of batches never shrinks the builder size or
alignment. -/
theorem runOps_mono (IGM : IRGenModule) (ops : List BuilderOp)
    (b : StructLayoutBuilder) (hnohdr : ∀ op ∈ ops, op.isHeader = false) :
    b.CurSize ≤ (runOps IGM b ops).CurSize
    ∧ b.CurAlignment ≤ (runOps IGM b ops).CurAlignment := by
  induction ops generalizing b with
  | nil => exact ⟨Nat.le_refl _, Nat.le_refl _⟩
  | cons op rest ih =>
      cases op with
      | heapHeader =>
          have := hnohdr _ (List.mem_cons_self _ _)
          simp [BuilderOp.isHeader] at this
      | fields tis strat =>
          have h1 := addFields_mono b tis strat
          have h2 := ih (addFields b tis strat).1
            (fun op hop => hnohdr op (List.mem_cons_of_mem _ hop))
          exact ⟨Nat.le_trans h1.1 h2.1, Nat.le_trans h1.2 h2.2⟩

/-- A run over a batch after knowledge is lost leaves the alignment and
size untouched. -/
theorem addFieldsSeq_state_of_known_false (tis : List TypeInfo)
    (b : StructLayoutBuilder) (h : b.IsKnownLayout = false) :
    (addFieldsSeq b tis).1.CurAlignment = b.CurAlignment
    ∧ (addFieldsSeq b tis).1.CurSize = b.CurSize := by
  induction tis generalizing b with
  | nil => exact ⟨rfl, rfl⟩
  | cons t rest ih =>
      simp only [addFieldsSeq, addField_of_known_false b t h]
      exact ih (unknownResult b t).1 rfl

/-- A processed sequence starting with a not-fixed field loses
knowledge immediately and never touches the alignment again. -/
theorem addFieldsSeq_cons_not_fixed (B : StructLayoutBuilder) (nf : TypeInfo)
    (nfrest : List TypeInfo) (hnff : nf.isFixed = false) :
    (addFieldsSeq B (nf :: nfrest)).1.CurAlignment = B.CurAlignment
    ∧ (addFieldsSeq B (nf :: nfrest)).1.IsKnownLayout = false := by
  have h2 := addField_of_not_fixed B nf hnff
  constructor
  · simp only [addFieldsSeq, h2]
    exact (addFieldsSeq_state_of_known_false nfrest (unknownResult B nf).1 rfl).1
  · simp only [addFieldsSeq, h2]
    exact (addFieldsSeq_of_known_false nfrest (unknownResult B nf).1 rfl).1

/-- Mixed batches, sequential core: from a known builder, the alignment
is maxed over exactly the fixed prefix of the processed sequence up to
its first not-fixed field, and the layout stays known iff every field is
fixed. -/
theorem addFieldsSeq_alignment (tis : List TypeInfo) (b : StructLayoutBuilder)
    (hb : b.IsKnownLayout = true) :
    (addFieldsSeq b tis).1.CurAlignment
      = (tis.takeWhile (fun ti => ti.isFixed)).foldl
          (fun m ti => max m ti.fixedAlignValue) b.CurAlignment
    ∧ (addFieldsSeq b tis).1.IsKnownLayout = tis.all (fun ti => ti.isFixed) := by
  induction tis generalizing b with
  | nil => exact ⟨rfl, hb⟩
  | cons t rest ih =>
      cases hf : t.isFixed with
      | false =>
          have h5 := addFieldsSeq_cons_not_fixed b t rest hf
          constructor
          · rw [h5.1]
            simp [List.takeWhile_cons, hf]
          · rw [h5.2]
            simp [List.all_cons, hf]
      | true =>
          have hf2 := hf
          rw [TypeInfo.isFixed, Bool.and_eq_true] at hf2
          obtain ⟨s, hs⟩ := Option.isSome_iff_exists.mp hf2.1
          obtain ⟨a, ha⟩ := Option.isSome_iff_exists.mp hf2.2
          have hav : t.fixedAlignValue = a := by simp [TypeInfo.fixedAlignValue, ha]
          have ihx := ih
            { StructFields :=
                if s == 0 then b.StructFields else b.StructFields ++ [LLVMType.fieldTy t],
              CurSize := roundUpToAlignment b.CurSize a + s,
              CurAlignment := max b.CurAlignment a,
              IsKnownLayout := true } rfl
          constructor
          · simp only [addFieldsSeq, addField_fixed b t s a hb hs ha,
              List.takeWhile_cons, hf, if_true, List.foldl_cons, hav]
            exact ihx.1
          · simp only [addFieldsSeq, addField_fixed b t s a hb hs ha,
              List.all_cons, hf, Bool.true_and]
            exact ihx.2

/-- The fields of one batch that are absorbed while the layout is still
known, together with whether the layout is still known afterwards. This
follows the processed order of each strategy: under Universal the batch
is processed in declaration order, so the fixed prefix up to the first
not-fixed field contributes; under Optimal the whole fixed subset is
processed before the not-fixed fields, so all of it contributes. Either
way the batch keeps the layout known iff every field of the batch is
fixed. -/
def batchKnownContribution (strategy : LayoutStrategy) (tis : List TypeInfo) :
    List TypeInfo × Bool :=
  match strategy with
  | .Universal => (tis.takeWhile (fun ti => ti.isFixed), tis.all (fun ti => ti.isFixed))
  | .Optimal => (tis.filter (fun ti => ti.isFixed), tis.all (fun ti => ti.isFixed))

/-- On a known builder, one addFields batch under either strategy maxes
the alignment over exactly the fields absorbed while the layout was
known, and the layout stays known iff the whole batch is fixed. -/
theorem addFields_alignment_of_known (b : StructLayoutBuilder)
    (tis : List TypeInfo) (strategy : LayoutStrategy)
    (hb : b.IsKnownLayout = true) :
    (addFields b tis strategy).1.CurAlignment
      = (batchKnownContribution strategy tis).1.foldl
          (fun m ti => max m ti.fixedAlignValue) b.CurAlignment
    ∧ (addFields b tis strategy).1.IsKnownLayout
      = (batchKnownContribution strategy tis).2 := by
  cases strategy with
  | Universal =>
      have h := addFieldsSeq_alignment tis b hb
      exact ⟨by simpa [addFields, batchKnownContribution] using h.1,
        by simpa [addFields, batchKnownContribution] using h.2⟩
  | Optimal =>
      cases hnf : tis.filter (fun ti => !ti.isFixed) with
      | nil =>
          have hfix : ∀ ti ∈ tis, ti.isFixed = true := by
            intro x hmem
            have := (List.filter_eq_nil_iff.mp hnf) x hmem
            simpa using this
          have h := addFields_fixed_alignment b tis LayoutStrategy.Optimal hb hfix
          have hfil : tis.filter (fun ti => ti.isFixed) = tis :=
            List.filter_eq_self.mpr hfix
          have hall : tis.all (fun ti => ti.isFixed) = true :=
            List.all_eq_true.mpr hfix
          constructor
          · rw [h.2]
            simp [batchKnownContribution, hfil]
          · rw [h.1]
            simp [batchKnownContribution, hall]
      | cons nf nfrest =>
          have hmemf : nf ∈ tis.filter (fun ti => !ti.isFixed) := by
            rw [hnf]; exact List.mem_cons_self _ _
          have hnff : nf.isFixed = false := by
            have := (List.mem_filter.mp hmemf).2
            simpa using this
          have hmemtis : nf ∈ tis := (List.mem_filter.mp hmemf).1
          have hfixfilter : ∀ ti ∈ tis.filter (fun ti => ti.isFixed), ti.isFixed = true :=
            fun x hmem => (List.mem_filter.mp hmem).2
          have hperm := optimalOrder_perm b.CurSize (tis.filter (fun ti => ti.isFixed))
          have hfixopt : ∀ ti ∈ optimalOrder b.CurSize (tis.filter (fun ti => ti.isFixed)),
              ti.isFixed = true :=
            fun x hx => hfixfilter x (hperm.mem_iff.mp hx)
          have h1 := addFieldsSeq_fixed
            (optimalOrder b.CurSize (tis.filter (fun ti => ti.isFixed))) b hb hfixopt
          have hallf : tis.all (fun ti => ti.isFixed) = false := by
            cases hall : tis.all (fun ti => ti.isFixed) with
            | false => rfl
            | true =>
                have := List.all_eq_true.mp hall nf hmemtis
                rw [hnff] at this
                exact absurd this (by simp)
          have hcomp : (addFields b tis LayoutStrategy.Optimal).1
              = (addFieldsSeq
                  (addFieldsSeq b
                    (optimalOrder b.CurSize (tis.filter (fun ti => ti.isFixed)))).1
                  (nf :: nfrest)).1 := by
            simp only [addFields, hnf]
            rw [addFieldsSeq_append]
          have h5 := addFieldsSeq_cons_not_fixed
            (addFieldsSeq b
              (optimalOrder b.CurSize (tis.filter (fun ti => ti.isFixed)))).1
            nf nfrest hnff
          constructor
          · rw [hcomp, h5.1, h1.2.2.2.2]
            simp only [batchKnownContribution]
            exact hperm.foldl_eq'
              (fun x _hx y _hy z => by
                rw [max_assoc, max_comm x.fixedAlignValue y.fixedAlignValue, ← max_assoc]) _
          · rw [hcomp, h5.2]
            simp [batchKnownContribution, hallf]

/-- A batch added after knowledge was lost changes neither the
lost-knowledge state nor the alignment, under either strategy. -/
theorem addFields_of_known_false_state (b : StructLayoutBuilder)
    (tis : List TypeInfo) (strategy : LayoutStrategy)
    (h : b.IsKnownLayout = false) :
    (addFields b tis strategy).1.CurAlignment = b.CurAlignment
    ∧ (addFields b tis strategy).1.IsKnownLayout = false := by
  cases strategy with
  | Universal =>
      exact ⟨by simpa [addFields] using (addFieldsSeq_state_of_known_false tis b h).1,
        by simpa [addFields] using (addFieldsSeq_of_known_false tis b h).1⟩
  | Optimal =>
      exact ⟨by simpa [addFields] using (addFieldsSeq_state_of_known_false _ b h).1,
        by simpa [addFields] using (addFieldsSeq_of_known_false _ b h).1⟩

/-- The alignment and knowledge the amended claim predicts after a
sequence of calls: starting from a running maximum and a knowledge
flag, the header maxes in its alignment, and a batch contributes the
alignments of exactly the fields absorbed while the layout is still
known (none once knowledge is lost), knowledge being lost as soon as a
batch contains a not-fixed field. -/
def knownAlignmentTrace (IGM : IRGenModule) :
    Nat × Bool → List BuilderOp → Nat × Bool
  | (m, known), [] => (m, known)
  | (m, known), .heapHeader :: rest =>
      knownAlignmentTrace IGM (max m IGM.heapHeaderAlignment, known) rest
  | (m, known), .fields tis strat :: rest =>
      if known then
        knownAlignmentTrace IGM
          ((batchKnownContribution strat tis).1.foldl
            (fun m2 ti => max m2 ti.fixedAlignValue) m,
           (batchKnownContribution strat tis).2) rest
      else knownAlignmentTrace IGM (m, known) rest

/-- A header-free run drives the builder alignment and knowledge to
exactly the traced values, for every mix of fixed and not-fixed
batches. -/
theorem runOps_knownAlignmentTrace (IGM : IRGenModule) (ops : List BuilderOp)
    (b : StructLayoutBuilder) (hnohdr : ∀ op ∈ ops, op.isHeader = false) :
    (runOps IGM b ops).CurAlignment
        = (knownAlignmentTrace IGM (b.CurAlignment, b.IsKnownLayout) ops).1
    ∧ (runOps IGM b ops).IsKnownLayout
        = (knownAlignmentTrace IGM (b.CurAlignment, b.IsKnownLayout) ops).2 := by
  induction ops generalizing b with
  | nil => exact ⟨rfl, rfl⟩
  | cons op rest ih =>
      cases op with
      | heapHeader =>
          have := hnohdr _ (List.mem_cons_self _ _)
          simp [BuilderOp.isHeader] at this
      | fields tis strat =>
          have ihx := ih (addFields b tis strat).1
            (fun op hop => hnohdr op (List.mem_cons_of_mem _ hop))
          cases hk : b.IsKnownLayout with
          | true =>
              have hstep := addFields_alignment_of_known b tis strat hk
              rw [hstep.1, hstep.2] at ihx
              simp only [runOps, runOp, knownAlignmentTrace, hk, if_true]
              exact ihx
          | false =>
              have hstep := addFields_of_known_false_state b tis strat hk
              rw [hstep.1, hstep.2] at ihx
              simp only [runOps, runOp, knownAlignmentTrace, hk]
              exact ihx

/-- C7 amended: for every sequence of calls (the header, if any, added
first per its documented precondition, with a valid header alignment),
getAlignment equals the traced maximum of the initial 1-byte alignment,
the header alignment if added, and the alignments of exactly the fields
absorbed while the layout was still known — fields absorbed after
hasKnownLayout() became false never raise it — and hasKnownLayout
equals the traced knowledge; moreover after addHeapHeader followed by
any field batches, getSize is at least the header size and getAlignment
at least the header alignment. -/
theorem C7_alignment_invariant_amended (IGM : IRGenModule) (hdr : Bool)
    (rest : List BuilderOp)
    (hnohdr : ∀ op ∈ rest, op.isHeader = false)
    (hha : 0 < IGM.heapHeaderAlignment) :
    ((runOps IGM StructLayoutBuilder.init
        ((if hdr then [BuilderOp.heapHeader] else []) ++ rest)).getAlignment
      = (knownAlignmentTrace IGM (1, true)
          ((if hdr then [BuilderOp.heapHeader] else []) ++ rest)).1)
    ∧ ((runOps IGM StructLayoutBuilder.init
        ((if hdr then [BuilderOp.heapHeader] else []) ++ rest)).hasKnownLayout
      = (knownAlignmentTrace IGM (1, true)
          ((if hdr then [BuilderOp.heapHeader] else []) ++ rest)).2)
    ∧ (hdr = true →
        IGM.heapHeaderSize
            ≤ (runOps IGM StructLayoutBuilder.init
                ((if hdr then [BuilderOp.heapHeader] else []) ++ rest)).getSize
        ∧ IGM.heapHeaderAlignment
            ≤ (runOps IGM StructLayoutBuilder.init
                ((if hdr then [BuilderOp.heapHeader] else []) ++ rest)).getAlignment) := by
  cases hdr with
  | false =>
      simp only [Bool.false_eq_true, if_false, List.nil_append]
      have h := runOps_knownAlignmentTrace IGM rest StructLayoutBuilder.init hnohdr
      exact ⟨h.1, h.2, fun hf => nomatch hf⟩
  | true =>
      simp only [if_true, List.singleton_append, runOps, runOp]
      have h := runOps_knownAlignmentTrace IGM rest
        (addHeapHeader IGM StructLayoutBuilder.init) hnohdr
      have hm := runOps_mono IGM rest
        (addHeapHeader IGM StructLayoutBuilder.init) hnohdr
      refine ⟨?_, ?_, fun _ => ⟨hm.1, hm.2⟩⟩
      · simp only [knownAlignmentTrace]
        rw [show max 1 IGM.heapHeaderAlignment = IGM.heapHeaderAlignment from
          Nat.max_eq_right hha]
        exact h.1
      · simp only [knownAlignmentTrace]
        rw [show max 1 IGM.heapHeaderAlignment = IGM.heapHeaderAlignment from
          Nat.max_eq_right hha]
        exact h.2

/-- C7 witness: the amended invariant applied to a mixed run with
header configuration (16, 2): a fixed align-4 field, then a not-fixed
field, then a fixed align-8 field; the traced alignment stops rising
once knowledge is lost. -/
theorem C7_witness :
    (∀ op ∈ ([BuilderOp.fields [⟨0, some 4, some 4⟩] LayoutStrategy.Universal,
        BuilderOp.fields [⟨1, none, none⟩] LayoutStrategy.Universal,
        BuilderOp.fields [⟨2, some 1, some 8⟩] LayoutStrategy.Universal] : List BuilderOp),
        op.isHeader = false)
    ∧ 0 < (⟨16, 2⟩ : IRGenModule).heapHeaderAlignment
    ∧ (runOps ⟨16, 2⟩ StructLayoutBuilder.init
        ((if true then [BuilderOp.heapHeader] else [])
          ++ [BuilderOp.fields [⟨0, some 4, some 4⟩] LayoutStrategy.Universal,
              BuilderOp.fields [⟨1, none, none⟩] LayoutStrategy.Universal,
              BuilderOp.fields [⟨2, some 1, some 8⟩] LayoutStrategy.Universal])).getAlignment
      = (knownAlignmentTrace ⟨16, 2⟩ (1, true)
          ((if true then [BuilderOp.heapHeader] else [])
            ++ [BuilderOp.fields [⟨0, some 4, some 4⟩] LayoutStrategy.Universal,
                BuilderOp.fields [⟨1, none, none⟩] LayoutStrategy.Universal,
                BuilderOp.fields [⟨2, some 1, some 8⟩] LayoutStrategy.Universal])).1
    ∧ (runOps ⟨16, 2⟩ StructLayoutBuilder.init
        ((if true then [BuilderOp.heapHeader] else [])
          ++ [BuilderOp.fields [⟨0, some 4, some 4⟩] LayoutStrategy.Universal,
              BuilderOp.fields [⟨1, none, none⟩] LayoutStrategy.Universal,
              BuilderOp.fields [⟨2, some 1, some 8⟩] LayoutStrategy.Universal])).hasKnownLayout
      = (knownAlignmentTrace ⟨16, 2⟩ (1, true)
          ((if true then [BuilderOp.heapHeader] else [])
            ++ [BuilderOp.fields [⟨0, some 4, some 4⟩] LayoutStrategy.Universal,
                BuilderOp.fields [⟨1, none, none⟩] LayoutStrategy.Universal,
                BuilderOp.fields [⟨2, some 1, some 8⟩] LayoutStrategy.Universal])).2
    ∧ (16 : Nat)
      ≤ (runOps ⟨16, 2⟩ StructLayoutBuilder.init
        ((if true then [BuilderOp.heapHeader] else [])
          ++ [BuilderOp.fields [⟨0, some 4, some 4⟩] LayoutStrategy.Universal,
              BuilderOp.fields [⟨1, none, none⟩] LayoutStrategy.Universal,
              BuilderOp.fields [⟨2, some 1, some 8⟩] LayoutStrategy.Universal])).getSize := by
  have h := C7_alignment_invariant_amended ⟨16, 2⟩ true
    [BuilderOp.fields [⟨0, some 4, some 4⟩] LayoutStrategy.Universal,
     BuilderOp.fields [⟨1, none, none⟩] LayoutStrategy.Universal,
     BuilderOp.fields [⟨2, some 1, some 8⟩] LayoutStrategy.Universal]
    (by decide) (by decide)
  exact ⟨by decide, by decide, h.1, h.2.1, (h.2.2 rfl).1⟩

end IRGenModel
